import Mathlib

/-!
# Optimum-velocity traffic model on a ring (`lab3.cpp`)

A shallow embedding of the numerical part of `lab3.cpp`: the function
`optimumVelocity`, the method `Car::update`, the car initialisation and the
update/event loop of `main`.

Modelling conventions.

* A C++ `double` is an element of a linearly ordered field `α` and arithmetic
  is exact, so every definition runs over `ℚ` and is read over `ℝ` where the
  hyperbolic tangent is needed.  Rounding is not modelled.
* `tanh` of `<cmath>` is a parameter of the definitions that call it; the
  statements about the real function instantiate it with `Real.tanh`.
* `SDL_GetTicks()` is an input: the tick count (milliseconds) it returns, a
  32-bit unsigned value. The member `int lasttime` holds a 32-bit signed
  value: every assignment to it goes through `wrapInt32` (from the unsigned
  tick count) or `toInt32` (from a `double`).
* The local `CarVel` of `Car::update` is read before it is ever written; its
  indeterminate initial value is an input of the model.
* Drawing calls (`SPG_RectFilled`, `SDL_UpdateRect`, `drawRoad`, `drawCar`,
  `printf`) touch no numerical state and are left out; so are the `colour`
  and `screen` members.
-/

namespace TrafficFlow

/-! ## Constants -/

/-- The number of cars, `#define NCARS 25`. The functions below take the car
count as an argument so that other values of the macro can be examined. -/
def NCARS : Nat := 25

/-- The least value of a 32-bit `int`, `-2^31`. -/
def INT_MIN : Int := -2147483648

/-- The greatest value of a 32-bit `int`, `2^31 - 1`. -/
def INT_MAX : Int := 2147483647

/-- Conversion of an unsigned 32-bit value to `int`: the value modulo `2^32`
in the range of `int`. -/
def wrapInt32 (x : Int) : Int :=
  (x + 2147483648) % 4294967296 - 2147483648

/-- Conversion of a `double` holding the whole number `x` to `int`. In range
the value is kept. Out of range C++ leaves the conversion undefined; the
value taken here is the one the x86 conversion instruction gives, `INT_MIN`. -/
def toInt32 (x : Int) : Int :=
  if INT_MIN ≤ x ∧ x ≤ INT_MAX then x else INT_MIN

/-- The macro `#define PI 3.141592653589793`. -/
def PI (α : Type) [LinearOrderedField α] : α := 3.141592653589793

section Model

variable {α : Type} [LinearOrderedField α]

/-! ## `optimumVelocity` -/

/-- The function `double optimumVelocity(double h)`:
`return tanh(10*h - 2) + tanh(2);`. -/
def optimumVelocity (tanh : α → α) (h : α) : α :=
  tanh (10 * h - 2) + tanh 2

/-! ## `class Car` -/

/-- The numerical members of `class Car`: `int lasttime`, `double theta`
(position, an angle) and `double dtheta` (velocity). -/
structure Car (α : Type) where
  lasttime : Int
  theta : α
  dtheta : α

/-- The constructor `Car::Car(newtheta, newdtheta, newcolour, newscreen)`;
`ticks` is the value of `SDL_GetTicks()`, and `lasttime = SDL_GetTicks();`
converts it from unsigned to `int`. -/
def Car.new (newtheta newdtheta : α) (ticks : Int) : Car α :=
  { theta := newtheta, dtheta := newdtheta, lasttime := wrapInt32 ticks }

/-- The index computed at the head of both car loops:
`int carinfront = i + 1; if (carinfront == NCARS) carinfront = 0;`. -/
def carinfront (ncars i : Nat) : Nat :=
  if i + 1 = ncars then 0 else i + 1

/-- The headway of iteration `i` of the velocity loop of `Car::update`:
`double headway = (Pos - theta); if (carinfront == 0) headway += 2*PI;`
where `carinfront` comes from the loop counter `i`. -/
def headway (ncars : Nat) (theta Pos : α) (i : Nat) : α :=
  if carinfront ncars i = 0 then (Pos - theta) + 2 * PI α else Pos - theta

/-- The arguments given to `optimumVelocity` during one call of
`Car::update`, in order: one headway for each `i = 0, ..., NCARS - 1`. -/
def headways (ncars : Nat) (theta Pos : α) : List α :=
  (List.range ncars).map (headway ncars theta Pos)

/-- What one call of `Car::update` leaves behind: the object itself, and the
final values of the locals `h`, `CarVel` and of the by-value parameter `Pos`,
all three of which go out of scope when the call returns. -/
structure UpdateResult (α : Type) where
  car : Car α
  h : α
  CarVel : α
  Pos : α

/-- The method `void Car::update(double a, double Pos, double CarNo, double hmult)`.

* `ticks` is the value of `SDL_GetTicks()` (`newtime`), `CarVel0` the
  indeterminate initial value of the local `CarVel`.
* `if ((newtime - lasttime) > 50) lasttime = newtime - 50;` then
  `h = 0.5*hmult*(newtime - lasttime)/1000; lasttime = newtime;`. The
  subtractions are done in `double`; both assignments convert a `double` to
  `int`.
* The velocity loop adds `h*a*(optimumVelocity(headway) - dtheta)` to `CarVel`
  for every `i < NCARS`; the position loop adds `h*dtheta` to `Pos` for every
  `i < NCARS`.
* No statement assigns `theta` or `dtheta`; `CarNo` is not read. -/
def Car.update (tanh : α → α) (ncars : Nat) (car : Car α)
    (a Pos _CarNo hmult : α) (ticks : Int) (CarVel0 : α) : UpdateResult α :=
  let newtime : α := (ticks : α)
  let lasttime1 : Int :=
    if newtime - (car.lasttime : α) > 50 then toInt32 (ticks - 50) else car.lasttime
  let h : α := 0.5 * hmult * (newtime - (lasttime1 : α)) / 1000
  let lasttime2 : Int := toInt32 ticks
  let CarVel : α :=
    (headways ncars car.theta Pos).foldl
      (fun cv hw => cv + h * a * (optimumVelocity tanh hw - car.dtheta)) CarVel0
  let Pos1 : α := (List.range ncars).foldl (fun p _ => p + h * car.dtheta) Pos
  { car := { car with lasttime := lasttime2 }, h := h, CarVel := CarVel, Pos := Pos1 }

/-- The pair (position, velocity) of a car. -/
def Car.kinematics (c : Car α) : α × α := (c.theta, c.dtheta)

/-! ## `main` -/

/-- The key symbols `main` distinguishes in `event.key.keysym.sym`. -/
inductive Key where
  | SDLK_ESCAPE
  | SDLK_LEFT
  | SDLK_RIGHT
  | SDLK_0
  | otherKey
  deriving DecidableEq, Repr

/-- The event types `main` distinguishes in `event.type`. -/
inductive Event where
  | SDL_KEYDOWN
  | SDL_KEYUP (sym : Key)
  | SDL_QUIT
  | otherEvent
  deriving DecidableEq, Repr

/-- The variables of `main` that the loop reads or writes: `run`, `hmult` and
the array `cars`. -/
structure MainState (α : Type) where
  run : Bool
  hmult : α
  cars : List (Car α)

/-- The body of `while (SDL_PollEvent(&event))`: the `switch` on the event
type and, for `SDL_KEYUP`, on the key. -/
def handleEvent (s : MainState α) : Event → MainState α
  | .SDL_KEYDOWN => s
  | .SDL_KEYUP .SDLK_ESCAPE => { s with run := false }
  | .SDL_KEYUP .SDLK_LEFT => { s with hmult := s.hmult / 1.5 }
  | .SDL_KEYUP .SDLK_RIGHT =>
      if s.hmult < 10.0 then { s with hmult := s.hmult * 1.5 } else s
  | .SDL_KEYUP .SDLK_0 => { s with hmult := 1.0 }
  | .SDL_KEYUP .otherKey => s
  | .SDL_QUIT => { s with run := false }
  | .otherEvent => s

/-- The initialisation loop of `main`:
`cars[i] = new Car(2.0*PI*i/(NCARS + 1), 0, 0x099876, screen)` for
`i = 0, ..., NCARS - 1`; `ticks i` is the tick count read by the constructor
of car `i`. -/
def initCars (ncars : Nat) (ticks : Nat → Int) : List (Car α) :=
  (List.range ncars).map fun (i : Nat) =>
    Car.new (2.0 * PI α * (i : α) / ((ncars + 1 : Nat) : α)) 0 (ticks i)

/-- The state of `main` on entry to the main loop: `run = 1`, `hmult = 1.0`
and the freshly created cars. -/
def mainInit (ncars : Nat) (ticks : Nat → Int) : MainState α :=
  { run := true, hmult := 1.0, cars := initCars ncars ticks }

/-- The inputs of one call of `Car::update` that come from outside the
program state: the tick count and the indeterminate initial `CarVel`. -/
structure CallEnv (α : Type) where
  ticks : Int
  CarVel0 : α

/-- One iteration of the update loop of `main`:
`cars[i]->update(10.0, cars[carinfront]->theta, (double)i, (double)1)`. -/
def updateCar (tanh : α → α) (ncars : Nat) (cars : List (Car α)) (i : Nat)
    (env : CallEnv α) : List (Car α) :=
  match cars[i]?, cars[carinfront ncars i]? with
  | some c, some f =>
      cars.set i (c.update tanh ncars 10.0 f.theta (i : α) 1 env.ticks env.CarVel0).car
  | _, _ => cars

/-- The update loop of `main`, `for (int i = 0; i < NCARS; i++)`. -/
def updateLoop (tanh : α → α) (ncars : Nat) (cars : List (Car α))
    (env : Nat → CallEnv α) : List (Car α) :=
  (List.range ncars).foldl (fun cs i => updateCar tanh ncars cs i (env i)) cars

/-- The inputs of one pass through the main loop: the environment of each
`update` call and the events returned by `SDL_PollEvent`. -/
structure FrameInput (α : Type) where
  env : Nat → CallEnv α
  events : List Event

/-- One pass through the body of `while (run)`: the update loop, then the
event loop. -/
def mainIteration (tanh : α → α) (ncars : Nat) (s : MainState α)
    (inp : FrameInput α) : MainState α :=
  inp.events.foldl handleEvent { s with cars := updateLoop tanh ncars s.cars inp.env }

/-- The loop `while (run)`, run on the given frames; it stops as soon as
`run` is cleared. -/
def mainLoop (tanh : α → α) (ncars : Nat) : MainState α → List (FrameInput α) → MainState α
  | s, [] => s
  | s, inp :: rest =>
      if s.run then mainLoop tanh ncars (mainIteration tanh ncars s inp) rest else s

end Model

/-! ## Facts about the real hyperbolic tangent -/

theorem tanh_lt_one (x : ℝ) : Real.tanh x < 1 := by
  rw [Real.tanh_eq_sinh_div_cosh, div_lt_one (Real.cosh_pos x)]
  have h := Real.cosh_sub_sinh x
  have hpos := Real.exp_pos (-x)
  linarith

theorem neg_one_lt_tanh (x : ℝ) : -1 < Real.tanh x := by
  rw [Real.tanh_eq_sinh_div_cosh, lt_div_iff₀ (Real.cosh_pos x)]
  have h := Real.cosh_add_sinh x
  have hpos := Real.exp_pos x
  linarith

theorem tanh_lt_tanh {x y : ℝ} (hxy : x < y) : Real.tanh x < Real.tanh y := by
  rw [Real.tanh_eq_sinh_div_cosh, Real.tanh_eq_sinh_div_cosh,
    div_lt_div_iff₀ (Real.cosh_pos x) (Real.cosh_pos y)]
  have hs : 0 < Real.sinh (y - x) := Real.sinh_pos_iff.mpr (sub_pos.mpr hxy)
  rw [Real.sinh_sub] at hs
  linarith

theorem tanh_pos {x : ℝ} (hx : 0 < x) : 0 < Real.tanh x := by
  have h := tanh_lt_tanh hx
  rwa [Real.tanh_zero] at h

/-! ## What `Car::update` and the loops of `main` leave unchanged -/

section Frame

variable {α : Type} [LinearOrderedField α]

theorem Car.update_car (tanh : α → α) (ncars : Nat) (car : Car α)
    (a Pos CarNo hmult : α) (ticks : Int) (CarVel0 : α) :
    (car.update tanh ncars a Pos CarNo hmult ticks CarVel0).car =
      { car with lasttime := toInt32 ticks } :=
  rfl

theorem set_eq_self_of_getElem? {β : Type} (l : List β) (i : Nat) (x : β)
    (h : l[i]? = some x) : l.set i x = l := by
  induction l generalizing i with
  | nil => rfl
  | cons y ys ih =>
    cases i with
    | zero =>
      simp only [List.getElem?_cons_zero, Option.some.injEq] at h
      simp [h]
    | succ j =>
      simp only [List.getElem?_cons_succ] at h
      simp [ih j h]

theorem updateCar_kinematics (tanh : α → α) (ncars : Nat) (cars : List (Car α))
    (i : Nat) (env : CallEnv α) :
    (updateCar tanh ncars cars i env).map Car.kinematics = cars.map Car.kinematics := by
  unfold updateCar
  split
  · next c f hc hf =>
    rw [List.map_set]
    apply set_eq_self_of_getElem?
    rw [List.getElem?_map, hc]
    rfl
  · rfl

theorem updateLoop_kinematics (tanh : α → α) (ncars : Nat) (cars : List (Car α))
    (env : Nat → CallEnv α) :
    (updateLoop tanh ncars cars env).map Car.kinematics = cars.map Car.kinematics := by
  unfold updateLoop
  generalize List.range ncars = idx
  induction idx generalizing cars with
  | nil => rfl
  | cons i rest ih =>
    rw [List.foldl_cons, ih, updateCar_kinematics]

theorem handleEvent_cars (s : MainState α) (e : Event) :
    (handleEvent s e).cars = s.cars := by
  cases e with
  | SDL_KEYUP sym =>
    cases sym <;> simp only [handleEvent]
    split <;> rfl
  | _ => rfl

theorem foldl_handleEvent_cars (events : List Event) (s : MainState α) :
    (events.foldl handleEvent s).cars = s.cars := by
  induction events generalizing s with
  | nil => rfl
  | cons e rest ih => rw [List.foldl_cons, ih, handleEvent_cars]

theorem mainIteration_kinematics (tanh : α → α) (ncars : Nat) (s : MainState α)
    (inp : FrameInput α) :
    (mainIteration tanh ncars s inp).cars.map Car.kinematics =
      s.cars.map Car.kinematics := by
  unfold mainIteration
  rw [foldl_handleEvent_cars]
  exact updateLoop_kinematics tanh ncars s.cars inp.env

theorem mainLoop_kinematics (tanh : α → α) (ncars : Nat) (frames : List (FrameInput α))
    (s : MainState α) :
    (mainLoop tanh ncars s frames).cars.map Car.kinematics =
      s.cars.map Car.kinematics := by
  induction frames generalizing s with
  | nil => rfl
  | cons inp rest ih =>
    unfold mainLoop
    split
    · rw [ih, mainIteration_kinematics]
    · rfl

theorem initCars_kinematics (ncars : Nat) (ticks : Nat → Int) :
    (initCars ncars ticks : List (Car α)).map Car.kinematics =
      (List.range ncars).map fun (i : Nat) =>
        (2.0 * PI α * (i : α) / ((ncars + 1 : Nat) : α), (0 : α)) := by
  unfold initCars
  rw [List.map_map]
  rfl

end Frame

/-! ## The initial cars, the loops of `Car::update`, and `hmult` -/

section Loops

variable {α : Type} [LinearOrderedField α]

theorem initCars_getElem? (ncars : Nat) (ticks : Nat → Int) (i : Nat) (hi : i < ncars) :
    (initCars ncars ticks : List (Car α))[i]? =
      some (Car.new (2.0 * PI α * (i : α) / ((ncars + 1 : Nat) : α)) 0 (ticks i)) := by
  unfold initCars
  rw [List.getElem?_map, List.getElem?_range hi]
  rfl

theorem headways_succ (n : Nat) (theta Pos : α) :
    headways (n + 1) theta Pos =
      List.replicate n (Pos - theta) ++ [Pos - theta + 2 * PI α] := by
  unfold headways
  rw [List.range_succ, List.map_append]
  congr 1
  · rw [List.eq_replicate_iff]
    refine ⟨by simp, ?_⟩
    intro b hb
    obtain ⟨i, hi, rfl⟩ := List.mem_map.mp hb
    have hi2 : i < n := List.mem_range.mp hi
    have : ¬ (i + 1 = n + 1) := by omega
    simp [headway, carinfront, this]
  · simp [headway, carinfront]

theorem foldl_add_const (c : α) (l : List Nat) (x : α) :
    l.foldl (fun p _ => p + c) x = x + (l.length : α) * c := by
  induction l generalizing x with
  | nil => simp
  | cons i rest ih =>
    rw [List.foldl_cons, ih, List.length_cons]
    push_cast
    ring

theorem handleEvent_hmult_lt (s : MainState α) (e : Event) (h : s.hmult < 15) :
    (handleEvent s e).hmult < 15 := by
  cases e with
  | SDL_KEYUP sym =>
    cases sym with
    | SDLK_LEFT =>
      simp only [handleEvent]
      rw [div_lt_iff₀ (by norm_num)]
      linarith
    | SDLK_RIGHT =>
      simp only [handleEvent]
      split
      · next hlt =>
        show s.hmult * 1.5 < 15
        have h10 : s.hmult < 10 := by norm_num at hlt; exact hlt
        norm_num
        linarith
      · exact h
    | SDLK_0 =>
      simp only [handleEvent]
      norm_num
    | SDLK_ESCAPE => exact h
    | otherKey => exact h
  | SDL_KEYDOWN => exact h
  | SDL_QUIT => exact h
  | otherEvent => exact h

theorem foldl_handleEvent_hmult_lt (events : List Event) (s : MainState α)
    (h : s.hmult < 15) : (events.foldl handleEvent s).hmult < 15 := by
  induction events generalizing s with
  | nil => exact h
  | cons e rest ih => exact ih _ (handleEvent_hmult_lt s e h)

theorem mainLoop_hmult_lt (tanh : α → α) (ncars : Nat) (frames : List (FrameInput α))
    (s : MainState α) (h : s.hmult < 15) :
    (mainLoop tanh ncars s frames).hmult < 15 := by
  induction frames generalizing s with
  | nil => exact h
  | cons inp rest ih =>
    unfold mainLoop
    split
    · exact ih _ (foldl_handleEvent_hmult_lt inp.events _ h)
    · exact h

theorem mainInit_hmult_lt (ncars : Nat) (ticks : Nat → Int) :
    (mainInit ncars ticks : MainState α).hmult < 15 := by
  norm_num [mainInit]

end Loops

/-! ## Theorems -/

/-- C1: for every real headway `h`, `optimumVelocity h` is
`tanh (10*h - 2) + tanh 2`, the formula `tanh (k*h - c) + tanh c` with
`k = 10` and `c = 2`. -/
theorem optimumVelocity_eq (h : ℝ) :
    optimumVelocity Real.tanh h = Real.tanh (10 * h - 2) + Real.tanh 2 :=
  rfl

/-- C7: for every real `h`, `optimumVelocity h` lies between
`-1 + tanh 2` and `1 + tanh 2`. -/
theorem optimumVelocity_bounds (h : ℝ) :
    -1 + Real.tanh 2 ≤ optimumVelocity Real.tanh h ∧
    optimumVelocity Real.tanh h ≤ 1 + Real.tanh 2 := by
  unfold optimumVelocity
  have h1 := neg_one_lt_tanh (10 * h - 2)
  have h2 := tanh_lt_one (10 * h - 2)
  constructor <;> linarith

/-- C10: `Car::update` leaves `theta` and `dtheta` of the car as they were
(only `lasttime` changes; the accumulated `CarVel` and the by-value `Pos` are
dropped), and therefore after any number of passes through the main loop car
`i` still has position `2*PI*i/(NCARS+1)` and velocity `0`. -/
theorem update_changes_no_simulation_state {α : Type} [LinearOrderedField α]
    (tanh : α → α) :
    (∀ (ncars : Nat) (car : Car α) (a Pos CarNo hmult : α) (ticks : Int) (CarVel0 : α),
      (car.update tanh ncars a Pos CarNo hmult ticks CarVel0).car.theta = car.theta ∧
      (car.update tanh ncars a Pos CarNo hmult ticks CarVel0).car.dtheta = car.dtheta ∧
      (car.update tanh ncars a Pos CarNo hmult ticks CarVel0).car.lasttime =
        toInt32 ticks) ∧
    (∀ (ticks : Nat → Int) (frames : List (FrameInput α)),
      (mainLoop tanh NCARS (mainInit NCARS ticks) frames).cars.map
          (fun c => (c.theta, c.dtheta)) =
        (List.range NCARS).map fun (i : Nat) =>
          (2 * PI α * (i : α) / ((NCARS : α) + 1), (0 : α))) := by
  refine ⟨fun ncars car a Pos CarNo hmult ticks CarVel0 => ⟨rfl, rfl, rfl⟩, ?_⟩
  intro ticks frames
  have h := mainLoop_kinematics tanh NCARS frames (mainInit NCARS ticks)
  rw [show (mainInit NCARS ticks : MainState α).cars = initCars NCARS ticks from rfl,
    initCars_kinematics] at h
  have hk : (fun c : Car α => (c.theta, c.dtheta)) = Car.kinematics := rfl
  rw [hk, h]
  apply List.map_congr_left
  intro i _
  norm_num

/-- C5 (as stated): with tick readings `lasttime = 2147483600` and
`newtime = 2147483700`, 100 ms apart, `newtime - 50` does not fit an `int`:
the cap is lost, `h` is `2147483.674` for `hmult = 1` rather than
`0.5 * 1 * 50 / 1000`, far above `0.025 * 1`, and `lasttime` ends at `INT_MIN`,
not at `newtime`. -/
theorem update_time_step_overflow :
    (2147483600 : Int) ≤ 2147483700 ∧
    ((Car.mk 2147483600 (0 : ℝ) 0).update Real.tanh NCARS 10 1 0 1 2147483700 0).h
      = 2147483.674 ∧
    ((Car.mk 2147483600 (0 : ℝ) 0).update Real.tanh NCARS 10 1 0 1 2147483700 0).h
      ≠ 0.5 * 1 * ((min (2147483700 - 2147483600) 50 : Int) : ℝ) / 1000 ∧
    ¬ ((Car.mk 2147483600 (0 : ℝ) 0).update Real.tanh NCARS 10 1 0 1 2147483700 0).h
      ≤ 0.025 * 1 ∧
    ((Car.mk 2147483600 (0 : ℝ) 0).update Real.tanh NCARS 10 1 0 1 2147483700 0).car.lasttime
      = INT_MIN ∧
    ((Car.mk 2147483600 (0 : ℝ) 0).update Real.tanh NCARS 10 1 0 1 2147483700 0).car.lasttime
      ≠ 2147483700 := by
  have hh : ((Car.mk 2147483600 (0 : ℝ) 0).update Real.tanh NCARS 10 1 0 1 2147483700 0).h
      = 2147483.674 := by
    norm_num [Car.update, toInt32, INT_MIN, INT_MAX]
  have hl : ((Car.mk 2147483600 (0 : ℝ) 0).update Real.tanh NCARS 10 1 0 1
      2147483700 0).car.lasttime = INT_MIN := by
    rw [Car.update_car]
    decide
  refine ⟨by decide, hh, ?_, ?_, hl, ?_⟩
  · rw [hh]
    norm_num
  · rw [hh]
    norm_num
  · rw [hl]
    decide

/-- C5 (amended): for tick readings `lasttime ≤ newtime` that an `int` holds
(`INT_MIN ≤ lasttime` and `newtime ≤ INT_MAX`), `Car::update` computes
`h = 0.5 * hmult * min (newtime - lasttime) 50 / 1000` (the elapsed time is
capped at 50 ms before `h` is formed), so `0 ≤ h ≤ 0.025 * hmult` when
`hmult ≥ 0`, and afterwards `lasttime` is `newtime`. -/
theorem update_time_step {α : Type} [LinearOrderedField α] (tanh : α → α)
    (ncars : Nat) (car : Car α) (a Pos CarNo hmult : α) (newtime : Int) (CarVel0 : α)
    (hlo : INT_MIN ≤ car.lasttime) (hle : car.lasttime ≤ newtime)
    (hhi : newtime ≤ INT_MAX) :
    (car.update tanh ncars a Pos CarNo hmult newtime CarVel0).h =
        0.5 * hmult * ((min (newtime - car.lasttime) 50 : Int) : α) / 1000 ∧
    (0 ≤ hmult →
      0 ≤ (car.update tanh ncars a Pos CarNo hmult newtime CarVel0).h ∧
      (car.update tanh ncars a Pos CarNo hmult newtime CarVel0).h ≤ 0.025 * hmult) ∧
    (car.update tanh ncars a Pos CarNo hmult newtime CarVel0).car.lasttime = newtime := by
  have hh : (car.update tanh ncars a Pos CarNo hmult newtime CarVel0).h =
      0.5 * hmult * ((min (newtime - car.lasttime) 50 : Int) : α) / 1000 := by
    simp only [Car.update]
    by_cases hc : (newtime : α) - (car.lasttime : α) > 50
    · have hc2 : (50 : Int) < newtime - car.lasttime := by exact_mod_cast hc
      have hfit : toInt32 (newtime - 50) = newtime - 50 := by
        unfold toInt32
        rw [if_pos]
        constructor <;> omega
      rw [if_pos hc, min_eq_right hc2.le, hfit]
      push_cast
      ring
    · have hc2 : newtime - car.lasttime ≤ 50 := by
        have : (newtime : α) - (car.lasttime : α) ≤ 50 := not_lt.mp hc
        exact_mod_cast this
      rw [if_neg hc, min_eq_left hc2]
      push_cast
      ring
  have hlast : (car.update tanh ncars a Pos CarNo hmult newtime CarVel0).car.lasttime
      = newtime := by
    rw [Car.update_car]
    show toInt32 newtime = newtime
    unfold toInt32
    rw [if_pos]
    constructor <;> omega
  refine ⟨hh, ?_, hlast⟩
  intro hm
  rw [hh]
  have h0 : (0 : α) ≤ ((min (newtime - car.lasttime) 50 : Int) : α) := by
    have : (0 : Int) ≤ min (newtime - car.lasttime) 50 := le_min (by omega) (by omega)
    exact_mod_cast this
  have h50 : ((min (newtime - car.lasttime) 50 : Int) : α) ≤ 50 := by
    have : min (newtime - car.lasttime) 50 ≤ (50 : Int) := min_le_right _ _
    exact_mod_cast this
  constructor
  · have := mul_nonneg hm h0
    linarith
  · have := mul_le_mul_of_nonneg_left h50 hm
    linarith

theorem update_time_step_witness :
    INT_MIN ≤ (Car.mk 1000 (0 : ℝ) 0).lasttime ∧
    (Car.mk 1000 (0 : ℝ) 0).lasttime ≤ 1080 ∧
    (1080 : Int) ≤ INT_MAX ∧
    ((Car.mk 1000 (0 : ℝ) 0).update Real.tanh NCARS 10 1 0 2 1080 0).h =
        0.5 * 2 * ((min (1080 - (Car.mk 1000 (0 : ℝ) 0).lasttime) 50 : Int) : ℝ) / 1000 ∧
    (0 : ℝ) ≤ 2 ∧
    0 ≤ ((Car.mk 1000 (0 : ℝ) 0).update Real.tanh NCARS 10 1 0 2 1080 0).h ∧
    ((Car.mk 1000 (0 : ℝ) 0).update Real.tanh NCARS 10 1 0 2 1080 0).h ≤ 0.025 * 2 ∧
    ((Car.mk 1000 (0 : ℝ) 0).update Real.tanh NCARS 10 1 0 2 1080 0).car.lasttime = 1080 :=
  ⟨by decide, by decide, by decide,
   (update_time_step Real.tanh NCARS (Car.mk 1000 0 0) 10 1 0 2 1080 0
      (by decide) (by decide) (by decide)).1,
   by norm_num,
   ((update_time_step Real.tanh NCARS (Car.mk 1000 0 0) 10 1 0 2 1080 0
      (by decide) (by decide) (by decide)).2.1 (by norm_num)).1,
   ((update_time_step Real.tanh NCARS (Car.mk 1000 0 0) 10 1 0 2 1080 0
      (by decide) (by decide) (by decide)).2.1 (by norm_num)).2,
   (update_time_step Real.tanh NCARS (Car.mk 1000 0 0) 10 1 0 2 1080 0
      (by decide) (by decide) (by decide)).2.2⟩

/-- C9 (as stated): it is not the case that `hmult` stays at or below `10.0`
under every sequence of key events; six presses of RIGHT take it from `1.0`
to `11.390625`. -/
theorem hmult_exceeds_ten :
    ¬ ∀ events : List Event,
        (events.foldl handleEvent (mainInit NCARS (fun _ => 0) : MainState ℚ)).hmult ≤ 10.0 := by
  intro h
  have h6 := h (List.replicate 6 (Event.SDL_KEYUP Key.SDLK_RIGHT))
  norm_num [List.replicate, handleEvent, mainInit] at h6

/-- C9 (amended): starting from `hmult = 1.0`, after every finite sequence of
key events, and at every point of the main loop, `hmult < 15`: RIGHT
multiplies by `1.5` only when `hmult < 10.0`, LEFT never raises a positive
value and 0 resets it to `1.0`. The argument uses the guard and the order
only, never that `/1.5` and `*1.5` cancel. -/
theorem hmult_lt {α : Type} [LinearOrderedField α] (tanh : α → α) (ncars : Nat)
    (ticks : Nat → Int) :
    (∀ events : List Event,
      (events.foldl handleEvent (mainInit ncars ticks : MainState α)).hmult < 15) ∧
    (∀ frames : List (FrameInput α),
      (mainLoop tanh ncars (mainInit ncars ticks) frames).hmult < 15) :=
  ⟨fun events => foldl_handleEvent_hmult_lt events _ (mainInit_hmult_lt ncars ticks),
   fun frames => mainLoop_hmult_lt tanh ncars frames _ (mainInit_hmult_lt ncars ticks)⟩

/-- C6: initialisation with `N` cars gives car `i` the position
`2*PI*i/(N+1)` and velocity `0`; each car but the last is `2*PI/(N+1)` behind
its successor, and the last car's wrapped headway
`position_0 - position_{N-1} + 2*PI` is `4*PI/(N+1)`, twice the others. -/
theorem initCars_spacing {α : Type} [LinearOrderedField α] (ncars : Nat)
    (ticks : Nat → Int) :
    (∀ i : Nat, i < ncars →
      ∃ c, (initCars ncars ticks : List (Car α))[i]? = some c ∧
        c.theta = 2 * PI α * (i : α) / ((ncars : α) + 1) ∧ c.dtheta = 0) ∧
    (∀ i : Nat, i + 1 < ncars →
      ∃ c f, (initCars ncars ticks : List (Car α))[i]? = some c ∧
        (initCars ncars ticks : List (Car α))[i + 1]? = some f ∧
        f.theta - c.theta = 2 * PI α / ((ncars : α) + 1)) ∧
    (1 ≤ ncars →
      ∃ c f, (initCars ncars ticks : List (Car α))[ncars - 1]? = some c ∧
        (initCars ncars ticks : List (Car α))[0]? = some f ∧
        f.theta - c.theta + 2 * PI α = 4 * PI α / ((ncars : α) + 1) ∧
        f.theta - c.theta + 2 * PI α = 2 * (2 * PI α / ((ncars : α) + 1))) := by
  have hpos : (0 : α) < (ncars : α) + 1 := by positivity
  have hne : (ncars : α) + 1 ≠ 0 := hpos.ne.symm
  refine ⟨?_, ?_, ?_⟩
  · intro i hi
    refine ⟨_, initCars_getElem? ncars ticks i hi, ?_, rfl⟩
    simp only [Car.new]
    push_cast
    norm_num
  · intro i hi
    refine ⟨_, _, initCars_getElem? ncars ticks i (by omega),
      initCars_getElem? ncars ticks (i + 1) hi, ?_⟩
    simp only [Car.new]
    push_cast
    field_simp
    ring
  · intro hn
    obtain ⟨m, rfl⟩ : ∃ m, ncars = m + 1 := ⟨ncars - 1, by omega⟩
    refine ⟨_, _, initCars_getElem? (m + 1) ticks (m + 1 - 1) (by omega),
      initCars_getElem? (m + 1) ticks 0 (by omega), ?_, ?_⟩
    · simp only [Car.new, Nat.add_sub_cancel]
      push_cast
      field_simp
      ring
    · simp only [Car.new, Nat.add_sub_cancel]
      push_cast
      field_simp
      ring

theorem initCars_spacing_witness :
    (3 < NCARS ∧
      ∃ c, (initCars NCARS (fun _ => 0) : List (Car ℚ))[3]? = some c ∧
        c.theta = 2 * PI ℚ * ((3 : Nat) : ℚ) / ((NCARS : ℚ) + 1) ∧ c.dtheta = 0) ∧
    (3 + 1 < NCARS ∧
      ∃ c f, (initCars NCARS (fun _ => 0) : List (Car ℚ))[3]? = some c ∧
        (initCars NCARS (fun _ => 0) : List (Car ℚ))[3 + 1]? = some f ∧
        f.theta - c.theta = 2 * PI ℚ / ((NCARS : ℚ) + 1)) ∧
    (1 ≤ NCARS ∧
      ∃ c f, (initCars NCARS (fun _ => 0) : List (Car ℚ))[NCARS - 1]? = some c ∧
        (initCars NCARS (fun _ => 0) : List (Car ℚ))[0]? = some f ∧
        f.theta - c.theta + 2 * PI ℚ = 4 * PI ℚ / ((NCARS : ℚ) + 1) ∧
        f.theta - c.theta + 2 * PI ℚ = 2 * (2 * PI ℚ / ((NCARS : ℚ) + 1))) :=
  ⟨⟨by decide, (initCars_spacing NCARS (fun _ => 0)).1 3 (by decide)⟩,
   ⟨by decide, (initCars_spacing NCARS (fun _ => 0)).2.1 3 (by decide)⟩,
   ⟨by decide, (initCars_spacing NCARS (fun _ => 0)).2.2 (by decide)⟩⟩

/-- C2 (the code at a failing input): car 0 of the initial state of `main`,
updated 10 ms after its creation with `Pos` the position of car 1. The call
computes `h = 0.005`, the velocity the rule asks for is positive, and the
stored velocity `dtheta` is still `0`. -/
theorem update_velocity_not_stored :
    ((Car.new (0 : ℝ) 0 0).update Real.tanh NCARS 10.0 (2.0 * PI ℝ * 1 / 26) 0 1 10 0).h
      = 0.005 ∧
    ((Car.new (0 : ℝ) 0 0).update Real.tanh NCARS 10.0 (2.0 * PI ℝ * 1 / 26) 0 1 10 0).car.dtheta
      = 0 ∧
    (0 : ℝ) < 0 + 0.005 * 10.0 * (optimumVelocity Real.tanh (2.0 * PI ℝ * 1 / 26 - 0) - 0) := by
  refine ⟨?_, rfl, ?_⟩
  · norm_num [Car.update, Car.new, (show wrapInt32 0 = 0 by decide)]
  · have h1 : 0 < Real.tanh (10 * (2.0 * PI ℝ * 1 / 26 - 0) - 2) :=
      tanh_pos (by norm_num [PI])
    have h2 : 0 < Real.tanh 2 := tanh_pos (by norm_num)
    unfold optimumVelocity
    linarith

/-- C3 (the code at a failing input): a car at position `0` with velocity `1`,
updated 10 ms after its creation. The call computes `h = 0.005`; the stored
position `theta` is still `0`, not `0 + 0.005 * 1`, and the 25 increments
`h*dtheta` went to the by-value parameter `Pos`. -/
theorem update_position_not_stored :
    ((Car.new (0 : ℝ) 1 0).update Real.tanh NCARS 10.0 (1 / 4) 0 1 10 0).h = 0.005 ∧
    ((Car.new (0 : ℝ) 1 0).update Real.tanh NCARS 10.0 (1 / 4) 0 1 10 0).car.dtheta = 1 ∧
    ((Car.new (0 : ℝ) 1 0).update Real.tanh NCARS 10.0 (1 / 4) 0 1 10 0).car.theta = 0 ∧
    ((Car.new (0 : ℝ) 1 0).update Real.tanh NCARS 10.0 (1 / 4) 0 1 10 0).car.theta
      ≠ 0 + 0.005 * 1 ∧
    ((Car.new (0 : ℝ) 1 0).update Real.tanh NCARS 10.0 (1 / 4) 0 1 10 0).Pos
      = 1 / 4 + 25 * (0.005 * 1) := by
  refine ⟨?_, rfl, rfl, ?_, ?_⟩
  · norm_num [Car.update, Car.new, (show wrapInt32 0 = 0 by decide)]
  · norm_num [Car.update, Car.new, (show wrapInt32 0 = 0 by decide)]
  · simp only [Car.update, Car.new]
    rw [foldl_add_const, List.length_range]
    norm_num [NCARS, (show wrapInt32 0 = 0 by decide)]

/-- C4 (the code at failing inputs): with four cars at `[0, PI/2, PI, 3*PI/2]`
the call for car 0 passes `PI/2` to `optimumVelocity` three times and then
`PI/2 + 2*PI`, and the call for the last car passes `0 - 3*PI/2` three times
before `0 - 3*PI/2 + 2*PI`; with the 25 cars of `main`, the call for car 0
passes the headway `2*PI/26` 24 times and then `2*PI/26 + 2*PI`. -/
theorem headways_wrap_on_last_iteration :
    headways 4 (0 : ℝ) (PI ℝ / 2) =
      [PI ℝ / 2 - 0, PI ℝ / 2 - 0, PI ℝ / 2 - 0, PI ℝ / 2 - 0 + 2 * PI ℝ] ∧
    headways 4 (3 * PI ℝ / 2) (0 : ℝ) =
      [0 - 3 * PI ℝ / 2, 0 - 3 * PI ℝ / 2, 0 - 3 * PI ℝ / 2, 0 - 3 * PI ℝ / 2 + 2 * PI ℝ] ∧
    headways NCARS (0 : ℝ) (2.0 * PI ℝ * 1 / 26) =
      List.replicate 24 (2.0 * PI ℝ * 1 / 26 - 0) ++ [2.0 * PI ℝ * 1 / 26 - 0 + 2 * PI ℝ] :=
  ⟨headways_succ 3 _ _, headways_succ 3 _ _, headways_succ 24 _ _⟩

end TrafficFlow
